import Mathlib

/-!
Verification of the tech-digest pipeline (digest.py, sources.py, bot.py,
telegram_toolkit/telegram.py).

Strings are modelled as lists of characters; Python string operations
(strip, lower, split, slicing) are embedded over that representation.
Python's regular-expression word classes are modelled over their ASCII
subsets (the rule patterns and all concrete inputs in this development are
ASCII).  The source file digest.py stores its decorative markers as
mojibake character sequences (e.g. the sun marker is the five characters
U+00E2 U+02DC U+20AC U+00EF U+00B8); the embedding reproduces those exact
characters.
-/

abbrev Str := List Char

/-- Python whitespace class (ASCII part): space, tab, newline, carriage
return, vertical tab, form feed. -/
def isPySpace (c : Char) : Bool :=
  c = ' ' || c = '\t' || c = '\n' || c = '\r' || c = '\x0b' || c = '\x0c'

/-- Python str.strip with no arguments: trim whitespace on both ends. -/
def pyStrip (s : Str) : Str :=
  ((s.dropWhile isPySpace).reverse.dropWhile isPySpace).reverse

/-- Python str.rstrip with no arguments. -/
def pyRstrip (s : Str) : Str :=
  (s.reverse.dropWhile isPySpace).reverse

/-- Python str.lower (ASCII part). -/
def lower (s : Str) : Str := s.map Char.toLower

/-- Python text.split with separator a single newline. -/
def splitNL : Str → List Str
  | [] => [[]]
  | c :: rest =>
    match splitNL rest with
    | [] => [[c]]
    | h :: t => if c = '\n' then [] :: h :: t else (c :: h) :: t

/-- Python join of lines with a newline separator. -/
def joinNL : List Str → Str
  | [] => []
  | [l] => l
  | l :: rest => l ++ '\n' :: joinNL rest

/-- Character of a string at an index, if in range. -/
def charAt? (t : Str) (i : Nat) : Option Char := (t.drop i).head?

/-- Regex word-character class (ASCII part of Python re's word class). -/
def isWordChar (c : Char) : Bool := c.isAlphanum || c = '_'

/-- A word boundary holds just before position i when the text ends there
or the character there is not a word character (all literals in the rule
tables consist of word characters, so the boundary test reduces to this). -/
def boundaryAt (t : Str) (i : Nat) : Bool :=
  match charAt? t i with
  | none => true
  | some c => !isWordChar c

/-- A word boundary holds just after position i - 1 (i.e. to the left of
position i) when i is the start of the text or the previous character is
not a word character. -/
def leftBoundary (t : Str) (i : Nat) : Bool :=
  match i with
  | 0 => true
  | j+1 =>
    match charAt? t j with
    | none => true
    | some c => !isWordChar c

/-- Whether the literal s occurs in t starting at position i. -/
def prefixAt (s t : Str) (i : Nat) : Bool :=
  decide ((t.drop i).take s.length = s)

/-- The shapes of regular expressions occurring in digest.py's rule
tables: start-anchored literal, start-anchored literal followed by a word
boundary, start-anchored literal with one optional trailing character
followed by a word boundary, word-bounded literal, literal preceded by a
word boundary, and a bare literal searched anywhere. -/
inductive Pat where
  | startLit (s : Str)
  | startBnd (s : Str)
  | startOptBnd (s : Str) (c : Char)
  | wordLit (s : Str)
  | wordStart (s : Str)
  | anyLit (s : Str)
deriving DecidableEq

/-- Python re.search of one of the rule patterns in a text. -/
def reSearch (p : Pat) (t : Str) : Bool :=
  match p with
  | .startLit s => prefixAt s t 0
  | .startBnd s => prefixAt s t 0 && boundaryAt t s.length
  | .startOptBnd s c =>
      (prefixAt (s ++ [c]) t 0 && boundaryAt t (s.length + 1))
        || (prefixAt s t 0 && boundaryAt t s.length)
  | .wordLit s =>
      (List.range (t.length + 1)).any
        (fun i => prefixAt s t i && leftBoundary t i && boundaryAt t (i + s.length))
  | .wordStart s =>
      (List.range (t.length + 1)).any (fun i => prefixAt s t i && leftBoundary t i)
  | .anyLit s =>
      (List.range (t.length + 1)).any (fun i => prefixAt s t i)

/-- Patterns of the first rule of CATEGORY_RULES in digest.py. -/
def bugFixPatterns : List Pat :=
  [.startLit "fix".data, .wordLit "fixed".data, .wordLit "fix".data,
   .wordStart "resolve".data, .wordLit "patch".data]

/-- Patterns of the IDE rule of CATEGORY_RULES. -/
def idePatterns : List Pat :=
  [.anyLit "[vscode]".data, .anyLit "[ide]".data, .wordLit "vscode".data,
   .wordLit "vim".data, .wordLit "neovim".data, .wordLit "jetbrains".data]

/-- Patterns of the Performance rule of CATEGORY_RULES. -/
def performancePatterns : List Pat :=
  [.wordLit "performance".data, .wordLit "faster".data, .wordLit "speed".data,
   .wordLit "memory".data, .wordStart "optimiz".data]

/-- Patterns of the New Features rule of CATEGORY_RULES. -/
def newFeaturePatterns : List Pat :=
  [.startOptBnd "adde".data 'd', .startBnd "new".data, .wordStart "introduce".data,
   .startOptBnd "enable".data 'd', .startLit "implement".data]

/-- Patterns of the Improvements rule of CATEGORY_RULES. -/
def improvementPatterns : List Pat :=
  [.startOptBnd "improve".data 'd', .startOptBnd "enhance".data 'd',
   .startOptBnd "update".data 'd', .startBnd "better".data, .startLit "refactor".data]

/-- Patterns of the Documentation rule of CATEGORY_RULES. -/
def documentationPatterns : List Pat :=
  [.wordLit "doc".data, .wordLit "readme".data, .wordLit "guide".data,
   .wordLit "tutorial".data]

/-- Patterns of the Changes rule of CATEGORY_RULES. -/
def changesPatterns : List Pat :=
  [.startOptBnd "change".data 'd']

/-- The ordered rule table from digest.py: categories are checked in this
order and the first rule with a matching pattern wins. -/
def CATEGORY_RULES : List (Str × List Pat) :=
  [("Bug Fixes".data, bugFixPatterns),
   ("IDE & Editor".data, idePatterns),
   ("Performance".data, performancePatterns),
   ("New Features".data, newFeaturePatterns),
   ("Improvements".data, improvementPatterns),
   ("Documentation".data, documentationPatterns),
   ("Changes".data, changesPatterns)]

/-- First rule in the ordered table whose pattern set matches the text. -/
def findCategory : List (Str × List Pat) → Str → Option Str
  | [], _ => none
  | (cat, pats) :: rest, cl =>
    if pats.any (fun p => reSearch p cl) then some cat else findCategory rest cl

/-- digest.py categorize_change: lowercase the text, scan CATEGORY_RULES in
order, return the first matching category, else the catch-all. -/
def categorize_change (change : Str) : Str :=
  (findCategory CATEGORY_RULES (lower change)).getD "Other Changes".data

/-- Lookup in an insertion-ordered association list (Python dict access). -/
def getVal {α : Type} : List (Str × α) → Str → Option α
  | [], _ => none
  | (k, v) :: rest, key => if k = key then some v else getVal rest key

/-- One step of digest.py categorize_changes: create the key with an empty
list when absent, then append the change to its category's list. -/
def dictAppend (d : List (Str × List Str)) (k : Str) (v : Str) : List (Str × List Str) :=
  if d.any (fun p => p.1 = k) then
    d.map (fun p => if p.1 = k then (p.1, p.2 ++ [v]) else p)
  else d ++ [(k, [v])]

/-- digest.py categorize_changes: sort changes into an insertion-ordered
dictionary keyed by category. -/
def categorize_changes (changes : List Str) : List (Str × List Str) :=
  changes.foldl (fun d c => dictAppend d (categorize_change c) c) []

/-- The bullet test of digest.py parse_changes, re.match of the pattern
caret dash-or-star bracket alternated with digits dot: the stripped line
must begin with a dash, a star, or a nonempty digit run followed by a dot. -/
def lineQualifies (line : Str) : Bool :=
  (match line with
   | c :: _ => c = '-' || c = '*'
   | [] => false)
  || (let ds := line.takeWhile Char.isDigit
      !ds.isEmpty && decide (charAt? line ds.length = some '.'))

/-- Scanning pass of the unanchored alternative of parse_changes' re.sub:
every occurrence of a digit run followed by a dot and trailing whitespace
is removed, scanning left to right and resuming after each match.  A fuel
argument bounds the recursion; fuel equal to the length of the text is
always sufficient since every step consumes at least one character. -/
def subNumDotGo : Nat → Str → Str
  | 0, l => l
  | _, [] => []
  | fuel+1, c :: rest =>
    let ds := (c :: rest).takeWhile Char.isDigit
    let after := (c :: rest).drop ds.length
    if c.isDigit && decide (after.head? = some '.') then
      subNumDotGo fuel ((after.drop 1).dropWhile isPySpace)
    else c :: subNumDotGo fuel rest

/-- Removal of all digit-run-dot-whitespace occurrences from a line. -/
def subNumDot (l : Str) : Str := subNumDotGo l.length l

/-- digest.py parse_changes' re.sub over a stripped line: the first
alternative (caret dash-or-star whitespace) can only fire at position
zero; the second alternative (digits dot whitespace) fires anywhere. -/
def stripMarkers (l : Str) : Str :=
  match l with
  | [] => subNumDot []
  | c :: rest =>
    if c = '-' || c = '*' then subNumDot (rest.dropWhile isPySpace)
    else subNumDot (c :: rest)

/-- One iteration of the loop in digest.py parse_changes: strip the line,
keep it when it qualifies as a bullet, clean it with the re.sub and strip,
and append the result when it is nonempty and longer than five
characters. -/
def parseStep (changes : List Str) (line : Str) : List Str :=
  let l := pyStrip line
  if lineQualifies l then
    let change := pyStrip (stripMarkers l)
    if change ≠ [] ∧ 5 < change.length then changes ++ [change] else changes
  else changes

/-- digest.py parse_changes: split the body on newlines and accumulate the
qualifying cleaned lines in order. -/
def parse_changes (body : Str) : List Str :=
  if body = [] then []
  else (splitNL body).foldl parseStep []

/-- The actionable-keyword patterns of digest.py identify_try_this. -/
def tryPatterns : List Pat :=
  [.wordLit "shortcut".data, .wordLit "command".data, .wordLit "setting".data,
   .wordLit "mode".data, .wordLit "autocomplete".data, .wordLit "navigation".data,
   .anyLit "ctrl+".data, .anyLit "cmd+".data]

/-- The exclusion patterns of digest.py identify_try_this. -/
def skipPatterns : List Pat :=
  [.startLit "fix".data, .wordLit "internal".data, .wordStart "refactor".data,
   .wordLit "typo".data, .anyLit "[sdk]".data, .anyLit "[ide]".data,
   .wordLit "deprecation".data]

/-- The eligibility re.match of identify_try_this: the lowercased text must
begin with an added or changed verb (with its optional final letter)
followed by a word boundary. -/
def startsAddedOrChanged (cl : Str) : Bool :=
  reSearch (.startOptBnd "adde".data 'd') cl || reSearch (.startOptBnd "change".data 'd') cl

/-- One iteration of the loop in identify_try_this: excluded or ineligible
items are dropped; items matching a try pattern are inserted at position
zero of the accumulator; other eligible items are appended at its end. -/
def tryThisStep (notable : List Str) (change : Str) : List Str :=
  let cl := lower change
  if skipPatterns.any (fun p => reSearch p cl) then notable
  else if !startsAddedOrChanged cl then notable
  else if tryPatterns.any (fun p => reSearch p cl) then change :: notable
  else notable ++ [change]

/-- Python slicing truncation: keep the item if its length is within the
limit, else cut to the keep length and add a three-dot marker. -/
def trunc (limit keep : Nat) (item : Str) : Str :=
  if limit < item.length then item.take keep ++ "...".data else item

/-- digest.py identify_try_this: run the loop, take the first three
accumulated items, and truncate each to eighty characters. -/
def identify_try_this (changes : List Str) : List Str :=
  ((changes.foldl tryThisStep []).take 3).map (trunc 80 77)

/-- Replacement of every occurrence of a character by a backslash followed
by that character (one Python str.replace call of escape_markdown). -/
def replaceChar (c : Char) (s : Str) : Str :=
  s.foldr (fun x acc => if x = c then '\\' :: c :: acc else x :: acc) []

/-- digest.py escape_markdown: sequentially escape underscore, star, the
two square brackets and the backtick character (code point 96). -/
def escape_markdown (s : Str) : Str :=
  replaceChar (Char.ofNat 96) (replaceChar ']' (replaceChar '[' (replaceChar '*' (replaceChar '_' s))))

/-- A GitHub release as consumed by digest.py: tag name, body and link are
read with plain indexing there, so they are total fields. -/
structure Release where
  tag_name : Str
  body : Str
  html_url : Str
deriving DecidableEq

/-- digest.py generate_summary. -/
def generate_summary (releases : List Release) (all_changes : List Str) : Str :=
  if releases = [] then "No new Claude Code releases this week.".data
  else
    let versions := releases.map (fun r => r.tag_name)
    let version_text :=
      if versions.length = 1 then "version ".data ++ versions.headD []
      else "versions ".data ++ versions.getLastD [] ++ " â†’ ".data ++ versions.headD []
    "Claude Code ".data ++ version_text ++ " â€¢ ".data
      ++ (Nat.repr all_changes.length).data ++ " changes".data

/-- The emoji table of format_digest (mojibake markers as stored in the
source file). -/
def emoji_map : List (Str × Str) :=
  [("New Features".data, "âœ¨".data),
   ("Bug Fixes".data, "ðŸ›".data),
   ("Improvements".data, "ðŸ“ˆ".data),
   ("IDE & Editor".data, "ðŸ–¥ï¸".data),
   ("Performance".data, "âš¡".data),
   ("Documentation".data, "ðŸ“š".data),
   ("Changes".data, "ðŸ”„".data),
   ("Other Changes".data, "ðŸ“".data)]

/-- The emoji of a category, with the dictionary-get default marker. -/
def emojiFor (category : Str) : Str := (getVal emoji_map category).getD "â€¢".data

/-- The header line a category section starts with in format_digest. -/
def headerOf (category : Str) : Str :=
  emojiFor category ++ " *".data ++ category ++ "*".data

/-- The display order of categories in format_digest (source lines 281 to
290). -/
def category_order : List Str :=
  ["New Features".data, "Improvements".data, "IDE & Editor".data, "Performance".data,
   "Bug Fixes".data, "Changes".data, "Documentation".data, "Other Changes".data]

/-- Per-category item cap in format_digest. -/
def max_per_category : Nat := 8

/-- Rendering of one category in the loop of format_digest: absent
categories render nothing; present ones render a header, up to
max_per_category items (each truncated to one hundred characters and
escaped), an elision note when items were hidden, and a blank line. -/
def sectionStep (categorized : List (Str × List Str)) (ls : List Str) (category : Str) : List Str :=
  match getVal categorized category with
  | none => ls
  | some items =>
    let shown := items.take max_per_category
    let hidden := items.length - shown.length
    let ls2 := (ls ++ [headerOf category])
      ++ shown.map (fun change => "  â€¢ ".data ++ escape_markdown (trunc 100 97 change))
    let ls3 :=
      if 0 < hidden then
        ls2 ++ ["  _...and ".data ++ (Nat.repr hidden).data ++ " more_".data]
      else ls2
    ls3 ++ [[]]

/-- The collection of all changes across releases in format_digest. -/
def collectChanges (releases : List Release) : List Str :=
  releases.foldl (fun acc r => acc ++ parse_changes r.body) []

/-- The list of lines format_digest joins with newlines in its non-empty
branch. -/
def format_digest_lines (releases : List Release) (enrichment : Str) : List Str :=
  let all_changes := collectChanges releases
  let summary := generate_summary releases all_changes
  let categorized := categorize_changes all_changes
  let try_this := identify_try_this all_changes
  let lines1 : List Str :=
    ["â˜€ï¸ *Claude Code Morning Digest*".data, [], "ðŸ“Œ ".data ++ summary, []]
  let lines2 :=
    if try_this ≠ [] then
      (lines1 ++ ["ðŸŽ¯ *Try This*".data]
        ++ try_this.map (fun item => "  â†’ ".data ++ escape_markdown item)) ++ [[]]
    else lines1
  let lines3 := category_order.foldl (sectionStep categorized) lines2
  let lines4 := if enrichment ≠ [] then lines3 ++ [pyRstrip enrichment] else lines3
  lines4 ++ ["[View on GitHub](".data ++ (releases.headD ⟨[], [], []⟩).html_url ++ ")".data]

/-- digest.py format_digest. -/
def format_digest (releases : List Release) (enrichment : Str) : Str :=
  if releases = [] then
    "â˜€ï¸ *Claude Code Morning Digest*\n\nNo new releases in the past week. You're all caught up!".data
  else joinNL (format_digest_lines releases enrichment)

/-- The hard truncation of send_digest before posting: a digest longer
than 4000 characters is cut to 3997 characters plus a three-dot marker. -/
def truncate_for_send (digest : Str) : Str :=
  if 4000 < digest.length then digest.take 3997 ++ "...".data else digest

/-- External effects of one send_digest run, in program order. -/
inductive Event where
  | fetchReleases
  | notifierInit
  | httpPost (payload : Str)
deriving DecidableEq

/-- The two failure reports of send_digest: the requests exception branch
and the ValueError branch for missing Telegram credentials. -/
inductive SendError where
  | sendFailed
  | telegramNotConfigured
deriving DecidableEq

/-- digest.py send_digest as an effect trace (enrichment disabled, as by
default): fetch_releases runs first, the digest is composed, then the
TelegramNotifier constructor runs and raises ValueError when credentials
are missing (telegram_toolkit/telegram.py), which send_digest catches and
reports as the not-configured failure; otherwise the truncated digest is
posted and a post failure is reported as the send failure. -/
def send_digest_run (releases : List Release) (credsOk : Bool) (postOk : Bool) :
    List Event × Option SendError :=
  let digest := format_digest releases []
  if !credsOk then
    ([Event.fetchReleases, Event.notifierInit], some SendError.telegramNotConfigured)
  else
    ([Event.fetchReleases, Event.notifierInit, Event.httpPost (truncate_for_send digest)],
     if postOk then none else some SendError.sendFailed)

/-- Message ceiling of the bot's chunker (bot.py). -/
def MAX_MSG_LEN : Nat := 3900

/-- Python str.lstrip with a newline argument. -/
def lstripNL : Str → Str
  | [] => []
  | c :: rest => if c = '\n' then lstripNL rest else c :: rest

/-- Python text.rfind of a newline over the slice from zero to stop: the
largest index below stop holding a newline, if any. -/
def rfindNL (t : Str) (stop : Nat) : Option Nat :=
  ((t.take stop).reverse.findIdx? (fun c => c = '\n')).map
    (fun j => (t.take stop).length - 1 - j)

/-- The chunking while-loop of bot.py send_message.  A fuel argument
bounds the recursion; fuel equal to the length of the text is always
sufficient since every iteration consumes at least one character. -/
def chunksGo : Nat → Str → List Str
  | 0, _ => []
  | fuel+1, text =>
    if text = [] then []
    else if text.length ≤ MAX_MSG_LEN then [text]
    else
      match rfindNL text MAX_MSG_LEN with
      | none => text.take MAX_MSG_LEN :: chunksGo fuel (lstripNL (text.drop MAX_MSG_LEN))
      | some i => text.take i :: chunksGo fuel (lstripNL (text.drop i))

/-- The chunks bot.py send_message posts, in order. -/
def send_message_chunks (text : Str) : List Str := chunksGo text.length text

/-- A GitHub release as consumed by sources.py get_release_data, which
reads the tag and body defensively with dictionary get. -/
structure GHRelease where
  tag_name : Option Str
  body : Option Str
deriving DecidableEq

/-- Normalized release data (sources.py ReleaseData). -/
structure ReleaseData where
  source_name : Str
  content : Str
  url : Str
  versions : List Str
  content_hash : Str
deriving DecidableEq

/-- One iteration of the combine loop of get_release_data: append one
release's heading and body to the content and its version (tag defaulting
to the unknown marker) to the version list. -/
def ghStep (acc : Str × List Str) (r : GHRelease) : Str × List Str :=
  let version := r.tag_name.getD "unknown".data
  let body := r.body.getD []
  (acc.1 ++ "## ".data ++ version ++ "\n".data ++ body ++ "\n\n".data,
   acc.2 ++ [version])

/-- The GitHub branch of sources.py get_release_data, parameterized by the
configured name and url of the source and by the fetched release list: an
empty fetch yields no data; with a non-empty seen set, releases whose tag
(defaulting to the empty string) is already seen are dropped; if none
remain there is no new data; otherwise the bodies are combined and the
versions (tags defaulting to the unknown marker) collected. -/
def get_release_data_github (name url : Str) (fetched : List GHRelease)
    (seen_versions : List Str) : Option ReleaseData :=
  if fetched = [] then none
  else
    let releases :=
      if seen_versions ≠ [] then
        fetched.filter (fun r => !(seen_versions.contains (r.tag_name.getD [])))
      else fetched
    if releases = [] then none
    else
      let cv := releases.foldl ghStep ([], [])
      some { source_name := name, content := cv.1, url := url,
             versions := cv.2, content_hash := [] }

/-- Per-source tracking state (spec section 3 SourceState). -/
structure SourceState where
  seen_versions : List Str
  content_fingerprint : Str
deriving DecidableEq

/-- The persisted mapping from source key to its state (spec section 3
DigestState). -/
abbrev StateStore := List (Str × SourceState)

/-- Modelled from the spec: sequential chunk delivery of the Chunker and
Delivery Coordinator (spec section 4.6).  The repository sources contain
only the feed-adapter side of the multi-source pipeline (sources.py); the
coordinator that delivers chunks in order, aborts the remaining chunks on
the first failure and gates the state commit is described in spec sections
4.4, 4.6 and 7 but is not among the source files.  Delivery walks the
chunks in order and stops at the first failed send. -/
def deliverAllChunks (send : Str → Bool) : List Str → Bool
  | [] => true
  | c :: rest => if send c then deliverAllChunks send rest else false

/-- Modelled from the spec: commit-after-delivery (spec sections 3, 4.6).
The scratch state replaces the durable store only when every chunk was
delivered; any failure leaves the durable store unchanged. -/
def runDeliveryAndCommit (store scratch : StateStore) (chunks : List Str)
    (send : Str → Bool) : StateStore :=
  if deliverAllChunks send chunks then scratch else store

/-- The closed set of categories (spec section 3). -/
def allCategories : List Str :=
  ["New Features".data, "Improvements".data, "Bug Fixes".data, "Performance".data,
   "IDE & Editor".data, "Documentation".data, "Changes".data, "Other Changes".data]

/-- Whether a line of the composed digest is the header line of one of the
categories. -/
def isCategoryHeader (line : Str) : Bool :=
  allCategories.any (fun cat => decide (line = headerOf cat))

/-- A category found by the rule scan names one of the scanned rules. -/
lemma findCategory_mem_fst (rules : List (Str × List Pat)) (cl : Str) (cat : Str)
    (h : findCategory rules cl = some cat) : cat ∈ rules.map Prod.fst := by
  induction rules with
  | nil => simp [findCategory] at h
  | cons r rest ih =>
    obtain ⟨c, pats⟩ := r
    simp only [findCategory] at h
    by_cases hm : pats.any (fun p => reSearch p cl) = true
    · simp [hm] at h
      simp [h]
    · simp [hm] at h
      simp [ih h]

/-- If no pattern of any rule matches, the rule scan finds nothing. -/
lemma findCategory_eq_none (rules : List (Str × List Pat)) (cl : Str)
    (h : ∀ p ∈ (rules.map Prod.snd).flatten, reSearch p cl = false) :
    findCategory rules cl = none := by
  induction rules with
  | nil => simp [findCategory]
  | cons r rest ih =>
    obtain ⟨c, pats⟩ := r
    have hpats : pats.any (fun p => reSearch p cl) = false := by
      rw [List.any_eq_false]
      intro p hp
      have := h p (by simp [List.mem_flatten]; exact Or.inl hp)
      simp [this]
    simp only [findCategory, hpats]
    simp
    exact ih (fun p hp => h p (by simp [List.mem_flatten] at hp ⊢; tauto))

/-- C2: classifier totality, determinism and order tie-break.  For every
change text the classifier returns exactly one category from the fixed
closed set; repeated calls agree; text matched by no rule pattern is
classified Other Changes; and text matching both a Bug Fixes pattern and a
New Features (add) pattern is classified Bug Fixes, because rules are
checked in order with the first match winning. -/
theorem C2_classifier_total_deterministic (change : Str) :
    categorize_change change ∈ allCategories
    ∧ categorize_change change = categorize_change change
    ∧ ((∀ p ∈ (CATEGORY_RULES.map Prod.snd).flatten, reSearch p (lower change) = false) →
        categorize_change change = "Other Changes".data)
    ∧ (bugFixPatterns.any (fun p => reSearch p (lower change)) = true →
        newFeaturePatterns.any (fun p => reSearch p (lower change)) = true →
        categorize_change change = "Bug Fixes".data) := by
  refine ⟨?_, rfl, ?_, ?_⟩
  · unfold categorize_change
    cases h : findCategory CATEGORY_RULES (lower change) with
    | none => simp [allCategories]
    | some cat =>
      have hm := findCategory_mem_fst _ _ _ h
      have hsub : ∀ x ∈ CATEGORY_RULES.map Prod.fst, x ∈ allCategories := by decide
      simpa using hsub cat hm
  · intro h
    unfold categorize_change
    rw [findCategory_eq_none _ _ h]
    rfl
  · intro h1 _
    unfold categorize_change CATEGORY_RULES findCategory
    simp [h1]

/-- C2 witness: a change mentioning both a fix and an addition is
classified Bug Fixes. -/
theorem C2_witness :
    categorize_change ("added fix for crash on startup").data = ("Bug Fixes").data :=
  (C2_classifier_total_deterministic ("added fix for crash on startup").data).2.2.2
    (by decide) (by decide)

/-- C9: the worked classification example from the spec: the three bullet
lines extract in order and classify to Bug Fixes, New Features and
Performance respectively. -/
theorem C9_worked_example :
    parse_changes ("- Fixed crash on startup\n- Added dark mode toggle\n- improved startup speed").data
      = [("Fixed crash on startup").data, ("Added dark mode toggle").data,
         ("improved startup speed").data]
    ∧ (parse_changes ("- Fixed crash on startup\n- Added dark mode toggle\n- improved startup speed").data).map categorize_change
      = [("Bug Fixes").data, ("New Features").data, ("Performance").data] := by
  constructor
  · decide
  · decide

/-- The loop of parse_changes appends, to its accumulator, exactly the
cleaned qualifying lines that pass the length filter, in source order. -/
lemma parse_fold (lines : List Str) (acc : List Str) :
    lines.foldl parseStep acc
      = acc ++ (((lines.map pyStrip).filter lineQualifies).map
          (fun l => pyStrip (stripMarkers l))).filter
          (fun c => !c.isEmpty && decide (5 < c.length)) := by
  induction lines generalizing acc with
  | nil => simp
  | cons line rest ih =>
    simp only [List.foldl_cons, List.map_cons]
    rw [ih]
    unfold parseStep
    by_cases hq : lineQualifies (pyStrip line) = true
    · simp only [hq, if_true, List.filter_cons, List.map_cons]
      by_cases hlen : pyStrip (stripMarkers (pyStrip line)) ≠ [] ∧ 5 < (pyStrip (stripMarkers (pyStrip line))).length
      · have hb : (!(pyStrip (stripMarkers (pyStrip line))).isEmpty
            && decide (5 < (pyStrip (stripMarkers (pyStrip line))).length)) = true := by
          obtain ⟨h1, h2⟩ := hlen
          simp [List.isEmpty_iff, h1, h2]
        simp [hlen, hb, List.filter_cons]
      · have hb : (!(pyStrip (stripMarkers (pyStrip line))).isEmpty
            && decide (5 < (pyStrip (stripMarkers (pyStrip line))).length)) = false := by
          rw [Classical.not_and_iff_or_not_not] at hlen
          rcases hlen with h1 | h2
          · simp at h1
            simp [h1]
          · simp [h2]
        simp [hlen, hb, List.filter_cons]
    · simp [hq, List.filter_cons]

/-- C3 counterexample: on a bullet line containing an inner digit run
followed by a dot, parse_changes removes that inner occurrence as well,
not only the leading marker, because the second alternative of its re.sub
pattern is not anchored. -/
theorem C3_counterexample :
    parse_changes ("- Fixed issue 1.2 in parser").data
        = [("Fixed issue 2 in parser").data]
    ∧ parse_changes ("- Fixed issue 1.2 in parser").data
        ≠ [("Fixed issue 1.2 in parser").data] := by
  constructor
  · decide
  · decide

/-- C3 as amended: parse_changes returns, in source order, the trimmed
lines that begin with a bullet or numeric-list marker, each cleaned by
removing the leading marker and additionally every occurrence anywhere in
the line of a digit run followed by a dot and trailing whitespace, keeping
only results longer than five characters; empty input yields the empty
list. -/
theorem C3_extractor (body : Str) :
    parse_changes body
      = ((((splitNL body).map pyStrip).filter lineQualifies).map
          (fun l => pyStrip (stripMarkers l))).filter
          (fun c => !c.isEmpty && decide (5 < c.length))
    ∧ parse_changes [] = [] := by
  constructor
  · unfold parse_changes
    by_cases hb : body = []
    · subst hb
      simp [splitNL, pyStrip, lineQualifies]
    · simp only [hb, if_false]
      simpa using parse_fold (splitNL body) []
  · rfl

/-- Eligibility in identify_try_this: not excluded by a skip pattern and
starting with an added or changed verb. -/
def tryEligible (c : Str) : Bool :=
  !(skipPatterns.any (fun p => reSearch p (lower c))) && startsAddedOrChanged (lower c)

/-- An eligible item matching an actionable keyword (promoted tier). -/
def tryPromoted (c : Str) : Bool :=
  tryEligible c && tryPatterns.any (fun p => reSearch p (lower c))

/-- An eligible item matching no actionable keyword (plain tier). -/
def tryPlain (c : Str) : Bool :=
  tryEligible c && !(tryPatterns.any (fun p => reSearch p (lower c)))

/-- The loop of identify_try_this builds the reversed promoted items,
followed by the starting accumulator, followed by the plain items in
input order. -/
lemma tryThis_fold (changes : List Str) (acc : List Str) :
    changes.foldl tryThisStep acc
      = (changes.filter tryPromoted).reverse ++ acc ++ changes.filter tryPlain := by
  induction changes generalizing acc with
  | nil => simp
  | cons c rest ih =>
    simp only [List.foldl_cons, List.filter_cons]
    by_cases hskip : skipPatterns.any (fun p => reSearch p (lower c)) = true
    · have hpro : tryPromoted c = false := by simp [tryPromoted, tryEligible, hskip]
      have hpl : tryPlain c = false := by simp [tryPlain, tryEligible, hskip]
      simp only [hpro, hpl, if_false, Bool.false_eq_true]
      rw [show tryThisStep acc c = acc by simp [tryThisStep, hskip]]
      exact ih acc
    · by_cases hsac : startsAddedOrChanged (lower c) = true
      · by_cases htry : tryPatterns.any (fun p => reSearch p (lower c)) = true
        · have hpro : tryPromoted c = true := by
            simp [tryPromoted, tryEligible, hskip, hsac, htry]
          have hpl : tryPlain c = false := by simp [tryPlain, tryEligible, htry]
          simp only [hpro, hpl, if_true, Bool.false_eq_true, if_false]
          rw [show tryThisStep acc c = c :: acc by simp [tryThisStep, hskip, hsac, htry]]
          rw [ih (c :: acc)]
          simp
        · have hpro : tryPromoted c = false := by simp [tryPromoted, tryEligible, htry]
          have hpl : tryPlain c = true := by
            simp [tryPlain, tryEligible, hskip, hsac, htry]
          simp only [hpro, hpl, if_true, Bool.false_eq_true, if_false]
          rw [show tryThisStep acc c = acc ++ [c] by simp [tryThisStep, hskip, hsac, htry]]
          rw [ih (acc ++ [c])]
          simp
      · have hpro : tryPromoted c = false := by simp [tryPromoted, tryEligible, hsac]
        have hpl : tryPlain c = false := by simp [tryPlain, tryEligible, hsac]
        simp only [hpro, hpl, Bool.false_eq_true, if_false]
        rw [show tryThisStep acc c = acc by simp [tryThisStep, hskip, hsac]]
        exact ih acc

/-- C5 counterexample: two actionable items in input order come out in the
opposite order, because promotion inserts at position zero. -/
theorem C5_counterexample :
    identify_try_this
        [("Added shortcut for opening files").data, ("Added command for searching").data]
      = [("Added command for searching").data, ("Added shortcut for opening files").data]
    ∧ ("Added shortcut for opening files").data ≠ ("Added command for searching").data := by
  constructor
  · decide
  · decide

/-- C5 as amended: the output of identify_try_this is the promoted tier in
reverse input order, followed by the plain eligible tier in input order,
cut to the first three items and truncated to eighty characters; in
particular every promoted item that appears comes before every plain item,
but order within the promoted tier is reversed, not preserved. -/
theorem C5_two_tier (changes : List Str) :
    identify_try_this changes
      = (((changes.filter tryPromoted).reverse ++ changes.filter tryPlain).take 3).map
          (trunc 80 77) := by
  unfold identify_try_this
  rw [tryThis_fold changes []]
  simp



/-- Key presence in the dictionary agrees with lookup success. -/
lemma getVal_isSome_iff_any (d : List (Str × List Str)) (k : Str) :
    (getVal d k).isSome = d.any (fun p => decide (p.1 = k)) := by
  induction d with
  | nil => simp [getVal]
  | cons p rest ih =>
    obtain ⟨k₁, v₁⟩ := p
    by_cases hk : k₁ = k
    · simp [getVal, hk]
    · simp [getVal, hk, ih]

/-- Lookup after the update map of dictAppend: the looked-up key's value
gains the appended element; other keys are untouched. -/
lemma getVal_map_upd (d : List (Str × List Str)) (k : Str) (v : Str) (key : Str) :
    getVal (d.map (fun p => if p.1 = k then (p.1, p.2 ++ [v]) else p)) key
      = if key = k then (getVal d k).map (fun l => l ++ [v]) else getVal d key := by
  induction d with
  | nil => simp [getVal]
  | cons p rest ih =>
    obtain ⟨k₁, v₁⟩ := p
    simp only [List.map_cons]
    by_cases h1 : k₁ = k
    · rw [if_pos h1]
      subst h1
      by_cases h2 : key = k₁
      · subst h2
        simp [getVal]
      · have h2' : ¬k₁ = key := fun hh => h2 hh.symm
        simp [getVal, h2, h2', ih]
    · rw [if_neg h1]
      by_cases h2 : k₁ = key
      · subst h2
        simp [getVal, h1]
      · simp [getVal, h1, h2, ih]

/-- Lookup across an appended dictionary segment. -/
lemma getVal_append (d₁ d₂ : List (Str × List Str)) (key : Str) :
    getVal (d₁ ++ d₂) key
      = if (getVal d₁ key).isSome then getVal d₁ key else getVal d₂ key := by
  induction d₁ with
  | nil => simp [getVal]
  | cons p rest ih =>
    obtain ⟨k₁, v₁⟩ := p
    by_cases h1 : k₁ = key
    · simp [getVal, h1]
    · simp [getVal, h1, ih]

/-- Lookup of a missing key yields none. -/
lemma getVal_eq_none_of_not_any (d : List (Str × List Str)) (k : Str)
    (h : (d.any fun p => decide (p.1 = k)) = false) : getVal d k = none := by
  rcases hv : getVal d k with _ | l
  · rfl
  · have h2 := getVal_isSome_iff_any d k
    rw [hv, h] at h2
    simp at h2

/-- Lookup of the key just fed to dictAppend. -/
lemma getVal_dictAppend_self (d : List (Str × List Str)) (k : Str) (v : Str) :
    getVal (dictAppend d k v) k = some ((getVal d k).getD [] ++ [v]) := by
  unfold dictAppend
  by_cases hany : (d.any fun p => decide (p.1 = k)) = true
  · rw [if_pos hany, getVal_map_upd, if_pos rfl]
    have hsome : (getVal d k).isSome = true := by rw [getVal_isSome_iff_any]; exact hany
    obtain ⟨l, hl⟩ := Option.isSome_iff_exists.mp hsome
    simp [hl]
  · have hany' : (d.any fun p => decide (p.1 = k)) = false := by
      revert hany
      cases d.any fun p => decide (p.1 = k) <;> simp
    rw [if_neg hany, getVal_append, getVal_eq_none_of_not_any d k hany']
    simp [getVal]

/-- Lookup of a different key is unchanged by dictAppend. -/
lemma getVal_dictAppend_other (d : List (Str × List Str)) (k : Str) (v : Str) (key : Str)
    (h : key ≠ k) :
    getVal (dictAppend d k v) key = getVal d key := by
  unfold dictAppend
  by_cases hany : (d.any fun p => decide (p.1 = k)) = true
  · rw [if_pos hany, getVal_map_upd, if_neg h]
  · rw [if_neg hany, getVal_append]
    rcases hv : getVal d key with _ | l
    · simp [getVal, Ne.symm h]
    · simp

/-- Folding one more change into the dictionary. -/
lemma categorize_changes_snoc (changes : List Str) (c : Str) :
    categorize_changes (changes ++ [c])
      = dictAppend (categorize_changes changes) (categorize_change c) c := by
  unfold categorize_changes
  rw [List.foldl_append]
  rfl

/-- Characterization of the dictionary built by categorize_changes: the
value of a category key is exactly the input filtered to that category, in
input order, and a key is present exactly when some input maps to it. -/
lemma getVal_categorize_changes (changes : List Str) (k : Str) :
    getVal (categorize_changes changes) k
      = if changes.any (fun c => decide (categorize_change c = k))
        then some (changes.filter (fun c => decide (categorize_change c = k)))
        else none := by
  induction changes using List.reverseRecOn with
  | nil => simp [categorize_changes, getVal]
  | append_singleton xs x ih =>
    rw [categorize_changes_snoc]
    by_cases hx : categorize_change x = k
    · rw [← hx, getVal_dictAppend_self, hx, ih]
      by_cases hany : (xs.any fun c => decide (categorize_change c = k)) = true
      · simp [hany, hx, List.filter_append]
      · have hany' : (xs.any fun c => decide (categorize_change c = k)) = false := by
          revert hany
          cases xs.any fun c => decide (categorize_change c = k) <;> simp
        have hfil : xs.filter (fun c => decide (categorize_change c = k)) = [] := by
          rw [List.filter_eq_nil_iff]
          intro a ha
          have := List.any_eq_false.mp hany' a ha
          simpa using this
        simp [hany', hx, List.filter_append, hfil]
    · rw [getVal_dictAppend_other _ _ _ _ (fun hh => hx hh.symm), ih]
      simp [List.filter_append, List.any_append, hx]

/-- The keys of the dictionary are distinct (Python dict keys). -/
lemma keys_nodup_dictAppend (d : List (Str × List Str)) (k : Str) (v : Str)
    (h : (d.map Prod.fst).Nodup) : ((dictAppend d k v).map Prod.fst).Nodup := by
  unfold dictAppend
  by_cases hany : (d.any fun p => decide (p.1 = k)) = true
  · rw [if_pos hany]
    have hmap : (d.map (fun p => if p.1 = k then (p.1, p.2 ++ [v]) else p)).map Prod.fst
        = d.map Prod.fst := by
      rw [List.map_map]
      apply List.map_congr_left
      intro p _
      by_cases hp : p.1 = k
      · simp [hp]
      · simp [hp]
    rw [hmap]
    exact h
  · rw [if_neg hany]
    have hany' : (d.any fun p => decide (p.1 = k)) = false := by
      revert hany
      cases d.any fun p => decide (p.1 = k) <;> simp
    have hk : k ∉ d.map Prod.fst := by
      intro hmem
      obtain ⟨p, hp, hpk⟩ := List.mem_map.mp hmem
      have := List.any_eq_false.mp hany' p hp
      simp [hpk] at this
    simp [List.nodup_append, h, hk]

/-- The dictionary of categorize_changes has distinct keys. -/
lemma keys_nodup_categorize (changes : List Str) :
    ((categorize_changes changes).map Prod.fst).Nodup := by
  induction changes using List.reverseRecOn with
  | nil => simp [categorize_changes]
  | append_singleton xs x ih =>
    rw [categorize_changes_snoc]
    exact keys_nodup_dictAppend _ _ _ ih

/-- The update map of dictAppend is the identity when the key is absent. -/
lemma upd_map_id (d : List (Str × List Str)) (k : Str) (v : Str)
    (h : ∀ p ∈ d, p.1 ≠ k) :
    d.map (fun p => if p.1 = k then (p.1, p.2 ++ [v]) else p) = d := by
  induction d with
  | nil => rfl
  | cons p rest ih =>
    simp only [List.map_cons]
    rw [if_neg (h p (by simp)), ih (fun q hq => h q (by simp [hq]))]


/-- Count of an element in a one-element list. -/
lemma count_single (v x : Str) : ([v] : List Str).count x = if v = x then 1 else 0 := by
  by_cases hvx : v = x <;> simp [List.count_cons, beq_iff_eq, hvx]

/-- Element count across all values after the update map of dictAppend,
when the key is present and keys are distinct: exactly one occurrence of
the appended element is added. -/
lemma count_flatten_mapupd (d : List (Str × List Str)) (k : Str) (v : Str) (x : Str)
    (hnd : (d.map Prod.fst).Nodup)
    (hany : (d.any fun p => decide (p.1 = k)) = true) :
    (((d.map (fun p => if p.1 = k then (p.1, p.2 ++ [v]) else p)).map Prod.snd).flatten).count x
      = ((d.map Prod.snd).flatten).count x + (if v = x then 1 else 0) := by
  induction d with
  | nil => simp at hany
  | cons p rest ih =>
    obtain ⟨k₁, v₁⟩ := p
    simp only [List.map_cons]
    by_cases h1 : k₁ = k
    · rw [if_pos h1]
      have hrest : ∀ q ∈ rest, q.1 ≠ k := by
        intro q hq
        have hk₁ : k₁ ∉ rest.map Prod.fst := (List.nodup_cons.mp (by simpa using hnd)).1
        intro hqk
        exact hk₁ (by rw [h1, ← hqk]; exact List.mem_map_of_mem Prod.fst hq)
      rw [upd_map_id rest k v hrest]
      simp only [List.flatten_cons, List.count_append]
      rw [count_single]
      omega
    · rw [if_neg h1]
      have hany' : (rest.any fun p => decide (p.1 = k)) = true := by
        simp only [List.any_cons] at hany
        rcases Bool.or_eq_true_iff.mp hany with h | h
        · simp [h1] at h
        · exact h
      have hnd' : (rest.map Prod.fst).Nodup := (List.nodup_cons.mp (by simpa using hnd)).2
      simp only [List.flatten_cons, List.count_append]
      rw [ih hnd' hany']
      omega

/-- Element count across all values after dictAppend, for distinct keys:
exactly one occurrence of the appended element is added. -/
lemma count_flatten_dictAppend (d : List (Str × List Str)) (k : Str) (v : Str) (x : Str)
    (hnd : (d.map Prod.fst).Nodup) :
    (((dictAppend d k v).map Prod.snd).flatten).count x
      = ((d.map Prod.snd).flatten).count x + (if v = x then 1 else 0) := by
  unfold dictAppend
  by_cases hany : (d.any fun p => decide (p.1 = k)) = true
  · rw [if_pos hany]
    exact count_flatten_mapupd d k v x hnd hany
  · rw [if_neg hany]
    simp only [List.map_append, List.flatten_append, List.count_append]
    rw [show ((([(k, [v])] : List (Str × List Str)).map Prod.snd).flatten) = [v] by simp]
    rw [count_single]

/-- The concatenation of all category lists preserves element counts. -/
lemma count_flatten_categorize (changes : List Str) (x : Str) :
    (((categorize_changes changes).map Prod.snd).flatten).count x = changes.count x := by
  induction changes using List.reverseRecOn with
  | nil => simp [categorize_changes]
  | append_singleton xs c ih =>
    rw [categorize_changes_snoc,
        count_flatten_dictAppend _ _ _ _ (keys_nodup_categorize xs),
        ih, List.count_append]
    rw [count_single]

/-- C10: categorization partition invariant.  Every category list held by
the dictionary returned by categorize_changes is exactly the input
filtered to that category, in input order; every input item's own category
is present and holds that filter (so each item appears in exactly the one
list of its category); and the concatenation of all category lists has the
same element counts as the input (no item lost or duplicated). -/
theorem C10_partition (changes : List Str) :
    (∀ k l, getVal (categorize_changes changes) k = some l →
        l = changes.filter (fun c => decide (categorize_change c = k)))
    ∧ (∀ c ∈ changes, getVal (categorize_changes changes) (categorize_change c)
        = some (changes.filter (fun cc => decide (categorize_change cc = categorize_change c))))
    ∧ (∀ x, (((categorize_changes changes).map Prod.snd).flatten).count x = changes.count x) := by
  refine ⟨?_, ?_, fun x => count_flatten_categorize changes x⟩
  · intro k l hl
    rw [getVal_categorize_changes] at hl
    by_cases hany : (changes.any fun c => decide (categorize_change c = k)) = true
    · rw [if_pos hany] at hl
      exact (Option.some_inj.mp hl).symm
    · rw [if_neg hany] at hl
      exact absurd hl (by simp)
  · intro c hc
    rw [getVal_categorize_changes]
    rw [if_pos (List.any_eq_true.mpr ⟨c, hc, by simp⟩)]

/-- C10 witness: on a concrete input the Bug Fixes list equals the input
filtered to Bug Fixes. -/
theorem C10_witness :
    ([("fix a").data, ("fix c").data] : List Str)
      = (["fix a".data, "add b".data, "fix c".data] : List Str).filter
          (fun c => decide (categorize_change c = ("Bug Fixes").data)) :=
  (C10_partition ["fix a".data, "add b".data, "fix c".data]).1
    (("Bug Fixes").data) [("fix a").data, ("fix c").data] (by decide)

/-- The version list built by the combine loop of get_release_data is the
accumulator followed by the tags (defaulting to the unknown marker) of the
releases, in order. -/
lemma ghStep_fold_versions (releases : List GHRelease) (acc : Str × List Str) :
    (releases.foldl ghStep acc).2
      = acc.2 ++ releases.map (fun r => r.tag_name.getD "unknown".data) := by
  induction releases generalizing acc with
  | nil => simp
  | cons r rest ih =>
    simp only [List.foldl_cons, List.map_cons]
    rw [ih]
    simp [ghStep]

/-- C4 counterexample: a fetched release with no tag name is filtered
against the empty-string default but reported under the unknown-marker
default, so when the seen set contains the unknown marker the returned
data still carries a version identifier that is in the seen set. -/
theorem C4_counterexample :
    (get_release_data_github ("Claude Code").data ("u").data
        [⟨none, none⟩] [("unknown").data]).map
      (fun rd => decide (("unknown").data ∈ rd.versions)) = some true
    ∧ ("unknown").data ∈ ([("unknown").data] : List Str) := by
  constructor
  · decide
  · decide

/-- C4 as amended: for fetched releases that all carry a tag name, the
returned data contains no version identifier already in the seen set, and
when every fetched release's tag is already seen the function reports no
new data rather than an error. -/
theorem C4_novelty (name url : Str) (fetched : List GHRelease) (seen : List Str)
    (htags : ∀ r ∈ fetched, r.tag_name.isSome = true) :
    (∀ rd, get_release_data_github name url fetched seen = some rd →
        ∀ v ∈ rd.versions, v ∉ seen)
    ∧ ((∀ r ∈ fetched, r.tag_name.getD [] ∈ seen) →
        get_release_data_github name url fetched seen = none) := by
  constructor
  · intro rd hrd v hv hvseen
    have hseen : seen ≠ [] := by
      intro hnil
      rw [hnil] at hvseen
      exact absurd hvseen (List.not_mem_nil v)
    unfold get_release_data_github at hrd
    by_cases hf : fetched = []
    · rw [if_pos hf] at hrd
      exact absurd hrd (by simp)
    · rw [if_neg hf] at hrd
      simp only [hseen, ne_eq, not_false_iff, if_true] at hrd
      set releases := fetched.filter
        (fun r => !(seen.contains (r.tag_name.getD []))) with hrel
      by_cases hre : releases = []
      · rw [if_pos hre] at hrd
        exact absurd hrd (by simp)
      · rw [if_neg hre] at hrd
        have hver : rd.versions
            = releases.map (fun r => r.tag_name.getD "unknown".data) := by
          have := Option.some_inj.mp hrd
          rw [← this]
          simpa using ghStep_fold_versions releases ([], [])
        rw [hver] at hv
        obtain ⟨r, hr, hrv⟩ := List.mem_map.mp hv
        have hrf := List.mem_filter.mp (hrel ▸ hr)
        obtain ⟨t, ht⟩ := Option.isSome_iff_exists.mp (htags r hrf.1)
        have hcont : seen.contains (r.tag_name.getD []) = false := by
          have h2 := hrf.2
          simp only [Bool.not_eq_true'] at h2
          exact h2
        rw [ht] at hcont hrv
        simp only [Option.getD_some] at hcont hrv
        rw [← hrv] at hvseen
        rw [← List.elem_iff] at hvseen
        rw [show (seen.elem t) = seen.contains t from rfl, hcont] at hvseen
        exact absurd hvseen (by simp)
  · intro hall
    unfold get_release_data_github
    by_cases hf : fetched = []
    · rw [if_pos hf]
    · rw [if_neg hf]
      obtain ⟨r0, hr0⟩ := List.exists_mem_of_ne_nil fetched hf
      have hseen : seen ≠ [] := by
        intro hnil
        have := hall r0 hr0
        rw [hnil] at this
        exact absurd this (List.not_mem_nil _)
      simp only [hseen, ne_eq, not_false_iff, if_true]
      have hfil : fetched.filter
          (fun r => !(seen.contains (r.tag_name.getD []))) = [] := by
        rw [List.filter_eq_nil_iff]
        intro r hr
        have hmem := hall r hr
        rw [← List.elem_iff] at hmem
        simp only [Bool.not_eq_true']
        show ¬List.elem (r.tag_name.getD []) seen = false
        rw [hmem]
        simp
      rw [hfil]
      simp

/-- C4 witness: with a tagged fetch, a surviving version is not in the
seen set, and a fully seen fetch yields no data. -/
theorem C4_witness :
    (("v2").data ∉ ([("v1").data] : List Str))
    ∧ get_release_data_github ("n").data ("u").data
        [⟨some ("v1").data, none⟩] [("v1").data] = none := by
  constructor
  · exact (C4_novelty ("n").data ("u").data
      [⟨some ("v2").data, some ("b").data⟩, ⟨some ("v1").data, some ("c").data⟩]
      [("v1").data] (by decide)).1
      ⟨("n").data, ("## v2\nb\n\n").data, ("u").data, [("v2").data], []⟩
      (by decide) ("v2").data (by decide)
  · exact (C4_novelty ("n").data ("u").data
      [⟨some ("v1").data, none⟩] [("v1").data] (by decide)).2 (by decide)

/-- The payload posted by send_digest is at most 4000 characters. -/
lemma truncate_for_send_le (d : Str) : (truncate_for_send d).length ≤ 4000 := by
  unfold truncate_for_send
  by_cases h : 4000 < d.length
  · rw [if_pos h]
    rw [List.length_append, List.length_take]
    have h1 : min 3997 d.length ≤ 3997 := Nat.min_le_left _ _
    have h2 : (("...").data).length = 3 := rfl
    omega
  · rw [if_neg h]
    omega

/-- Every chunk emitted by the chunking loop is at most MAX_MSG_LEN
characters long, whatever the fuel. -/
lemma chunksGo_le (fuel : Nat) (text : Str) (c : Str) (hc : c ∈ chunksGo fuel text) :
    c.length ≤ MAX_MSG_LEN := by
  induction fuel generalizing text with
  | zero => simp [chunksGo] at hc
  | succ f ih =>
    rw [chunksGo] at hc
    by_cases hnil : text = []
    · rw [if_pos hnil] at hc
      simp at hc
    · rw [if_neg hnil] at hc
      by_cases hlen : text.length ≤ MAX_MSG_LEN
      · rw [if_pos hlen] at hc
        simp at hc
        rw [hc]
        exact hlen
      · rw [if_neg hlen] at hc
        cases hfind : rfindNL text MAX_MSG_LEN with
        | none =>
          rw [hfind] at hc
          simp only [List.mem_cons] at hc
          rcases hc with hc | hc
          · rw [hc, List.length_take]
            exact Nat.min_le_left _ _
          · exact ih _ hc
        | some i =>
          rw [hfind] at hc
          have hi : i ≤ MAX_MSG_LEN := by
            unfold rfindNL at hfind
            rcases hj : (text.take MAX_MSG_LEN).reverse.findIdx? (fun ch => ch = '\n')
                with _ | j
            · rw [hj] at hfind
              simp at hfind
            · rw [hj] at hfind
              simp at hfind
              have hlt : (text.take MAX_MSG_LEN).length ≤ MAX_MSG_LEN := by
                rw [List.length_take]
                exact Nat.min_le_left _ _
              omega
          simp only [List.mem_cons] at hc
          rcases hc with hc | hc
          · rw [hc, List.length_take]
            exact le_trans (Nat.min_le_left _ _) hi
          · exact ih _ hc

/-- C7: chunk-size bound.  Every payload posted by a credentialed
send_digest run is at most 4000 characters, and every chunk produced by
the bot's newline-splitting chunker is at most 3900 characters. -/
theorem C7_chunk_size_bound (releases : List Release) (postOk : Bool) (p : Str)
    (hp : Event.httpPost p ∈ (send_digest_run releases true postOk).1)
    (text c : Str) (hc : c ∈ send_message_chunks text) :
    p.length ≤ 4000 ∧ c.length ≤ 3900 := by
  constructor
  · unfold send_digest_run at hp
    simp at hp
    rw [hp]
    exact truncate_for_send_le _
  · exact chunksGo_le text.length text c hc

/-- C7 witness: the bound holds for the empty-release digest payload and
for a concrete short chunked message. -/
theorem C7_witness :
    (truncate_for_send (format_digest [] [])).length ≤ 4000
    ∧ (("hello").data).length ≤ 3900 :=
  C7_chunk_size_bound [] true (truncate_for_send (format_digest [] []))
    (by decide) ("hello").data ("hello").data (by decide)

/-- C8 counterexample: a run with missing delivery credentials still has
fetch work in its effect trace (fetch_releases runs before the
TelegramNotifier constructor raises), so the pipeline does not abort
before fetch work. -/
theorem C8_counterexample :
    Event.fetchReleases ∈ (send_digest_run [] false true).1
    ∧ (send_digest_run [] false true).2 = some SendError.telegramNotConfigured := by
  constructor
  · decide
  · decide

/-- C8 as amended: a run with missing delivery credentials fails with the
not-configured report, distinct from the delivery-failure report, and
performs no delivery attempt, but the fetch work has already happened
before the credential failure: the trace is exactly fetch followed by the
notifier construction. -/
theorem C8_credentials (releases : List Release) (postOk : Bool) :
    (send_digest_run releases false postOk).1 = [Event.fetchReleases, Event.notifierInit]
    ∧ (send_digest_run releases false postOk).2 = some SendError.telegramNotConfigured
    ∧ SendError.telegramNotConfigured ≠ SendError.sendFailed
    ∧ ∀ p, Event.httpPost p ∉ (send_digest_run releases false postOk).1 := by
  refine ⟨rfl, rfl, by simp, ?_⟩
  intro p hp
  unfold send_digest_run at hp
  simp at hp

/-- Delivery of the chunk list fails when some chunk's send fails. -/
lemma deliverAll_eq_false (send : Str → Bool) (chunks : List Str)
    (h : ∃ c ∈ chunks, send c = false) : deliverAllChunks send chunks = false := by
  induction chunks with
  | nil => simp at h
  | cons c rest ih =>
    obtain ⟨x, hx, hxf⟩ := h
    rcases List.mem_cons.mp hx with hx1 | hx1
    · subst hx1
      simp [deliverAllChunks, hxf]
    · unfold deliverAllChunks
      by_cases hs : send c = true
      · rw [if_pos hs]
        exact ih ⟨x, hx1, hxf⟩
      · rw [if_neg hs]

/-- C1: commit-after-delivery atomicity (modelled from the spec, sections
3, 4.6 and 7; the delivery coordinator is not among the source files).
When delivery of any chunk fails, the persisted state store after the run
equals its content before the run, and the durable write of the scratch
state can only happen when every chunk was delivered successfully. -/
theorem C1_commit_after_delivery (store scratch : StateStore) (chunks : List Str)
    (send : Str → Bool) (hfail : ∃ c ∈ chunks, send c = false) :
    runDeliveryAndCommit store scratch chunks send = store
    ∧ ∀ chunks2, runDeliveryAndCommit store scratch chunks2 send ≠ store →
        deliverAllChunks send chunks2 = true := by
  constructor
  · unfold runDeliveryAndCommit
    rw [deliverAll_eq_false send chunks hfail]
    simp
  · intro chunks2 hne
    by_cases h : deliverAllChunks send chunks2 = true
    · exact h
    · exfalso
      apply hne
      unfold runDeliveryAndCommit
      rw [if_neg h]

/-- C1 witness: with delivery failing on the second of three chunks, the
state store is unchanged. -/
theorem C1_witness :
    runDeliveryAndCommit
        [(("src").data, ⟨[("v1").data], []⟩)]
        [(("src").data, ⟨[("v1").data, ("v2").data], []⟩)]
        [("a").data, ("b").data, ("c").data]
        (fun ch => !(ch == ("b").data))
      = [(("src").data, ⟨[("v1").data], []⟩)] :=
  (C1_commit_after_delivery
      [(("src").data, ⟨[("v1").data], []⟩)]
      [(("src").data, ⟨[("v1").data, ("v2").data], []⟩)]
      [("a").data, ("b").data, ("c").data]
      (fun ch => !(ch == ("b").data))
      ⟨("b").data, by decide, by decide⟩).1

/-- A string with a given prefix differs from any string whose
corresponding prefix differs. -/
lemma ne_of_take_prefix (pre t s : Str) (h : t.take pre.length ≠ pre) : pre ++ s ≠ t := by
  intro heq
  apply h
  rw [← heq, List.take_left]

/-- A line starting with a prefix shared by no category header is not a
category header. -/
lemma not_header_of_prefixed (pre : Str)
    (h : ∀ cat ∈ allCategories, (headerOf cat).take pre.length ≠ pre) (s : Str) :
    isCategoryHeader (pre ++ s) = false := by
  unfold isCategoryHeader
  rw [List.any_eq_false]
  intro cat hcat
  simp only [decide_eq_true_eq]
  exact ne_of_take_prefix pre (headerOf cat) s (h cat hcat)

/-- The header of each category is recognized as a category header. -/
lemma header_mem_is_header : ∀ cat ∈ allCategories, isCategoryHeader (headerOf cat) = true := by
  decide


/-- Item lines of a category section are not category headers. -/
lemma filter_itemLines (items : List Str) :
    (items.map (fun change => ("  â€¢ ").data ++ escape_markdown (trunc 100 97 change))).filter
        isCategoryHeader = [] := by
  rw [List.filter_eq_nil_iff]
  intro a ha
  obtain ⟨x, _, hxa⟩ := List.mem_map.mp ha
  rw [← hxa, not_header_of_prefixed ("  â€¢ ").data (by decide)]
  simp

/-- Try-this lines are not category headers. -/
lemma filter_tryLines (items : List Str) :
    (items.map (fun item => ("  â†’ ").data ++ escape_markdown item)).filter
        isCategoryHeader = [] := by
  rw [List.filter_eq_nil_iff]
  intro a ha
  obtain ⟨x, _, hxa⟩ := List.mem_map.mp ha
  rw [← hxa, not_header_of_prefixed ("  â†’ ").data (by decide)]
  simp

/-- Unfolding of a present category's section. -/
lemma sectionStep_some (categorized : List (Str × List Str)) (acc : List Str)
    (c : Str) (items : List Str) (hv : getVal categorized c = some items) :
    sectionStep categorized acc c
      = (if 0 < items.length - (items.take max_per_category).length
          then ((acc ++ [headerOf c]) ++ (items.take max_per_category).map
              (fun change => ("  â€¢ ").data ++ escape_markdown (trunc 100 97 change)))
            ++ [("  _...and ").data
                ++ (Nat.repr (items.length - (items.take max_per_category).length)).data
                ++ (" more_").data]
          else (acc ++ [headerOf c]) ++ (items.take max_per_category).map
              (fun change => ("  â€¢ ").data ++ escape_markdown (trunc 100 97 change)))
        ++ [[]] := by
  unfold sectionStep
  rw [hv]

/-- Unfolding of an absent category's section. -/
lemma sectionStep_none (categorized : List (Str × List Str)) (acc : List Str)
    (c : Str) (hv : getVal categorized c = none) :
    sectionStep categorized acc c = acc := by
  unfold sectionStep
  rw [hv]

/-- One category section contributes exactly its header line to the
header-filtered digest. -/
lemma filter_sectionStep (categorized : List (Str × List Str)) (acc : List Str)
    (c : Str) (hc : c ∈ allCategories) :
    (sectionStep categorized acc c).filter isCategoryHeader
      = acc.filter isCategoryHeader
        ++ (if (getVal categorized c).isSome then [headerOf c] else []) := by
  cases hv : getVal categorized c with
  | none =>
    rw [sectionStep_none categorized acc c hv]
    simp
  | some items =>
    have hone : isCategoryHeader (headerOf c) = true := header_mem_is_header c hc
    have hnil : isCategoryHeader ([] : Str) = false := by decide
    rw [sectionStep_some categorized acc c items hv,
        if_pos (show (some items).isSome = true from rfl)]
    have hmore : (([("  _...and ").data
        ++ (Nat.repr (items.length - (items.take max_per_category).length)).data
        ++ (" more_").data] : List Str).filter isCategoryHeader) = [] := by
      rw [List.filter_eq_nil_iff]
      intro a ha
      simp only [List.mem_singleton] at ha
      rw [ha, List.append_assoc, not_header_of_prefixed ("  _...and ").data (by decide)]
      simp
    by_cases hh : 0 < items.length - (items.take max_per_category).length
    · rw [if_pos hh, List.filter_append, List.filter_append, List.filter_append,
        List.filter_append, filter_itemLines, hmore]
      simp [hone, hnil]
    · rw [if_neg hh, List.filter_append, List.filter_append, List.filter_append,
        filter_itemLines]
      simp [hone, hnil]

/-- The category loop of format_digest contributes the headers of the
present categories, in loop order, to the header-filtered digest. -/
lemma filter_sections_fold (categorized : List (Str × List Str)) (cats : List Str)
    (hsub : ∀ c ∈ cats, c ∈ allCategories) (acc : List Str) :
    (cats.foldl (sectionStep categorized) acc).filter isCategoryHeader
      = acc.filter isCategoryHeader
        ++ (cats.filter (fun c => (getVal categorized c).isSome)).map headerOf := by
  induction cats generalizing acc with
  | nil => simp
  | cons c cs ih =>
    simp only [List.foldl_cons, List.filter_cons]
    rw [ih (fun x hx => hsub x (by simp [hx]))]
    rw [filter_sectionStep categorized acc c (hsub c (by simp))]
    cases hv : (getVal categorized c).isSome with
    | true => simp [hv]
    | false => simp [hv]

/-- Unfolding of the digest line list with enrichment disabled. -/
lemma format_digest_lines_no_enrichment (releases : List Release) :
    format_digest_lines releases []
      = (category_order.foldl (sectionStep (categorize_changes (collectChanges releases)))
          (if identify_try_this (collectChanges releases) ≠ [] then
            ((["â˜€ï¸ *Claude Code Morning Digest*".data, [],
              "ðŸ“Œ ".data ++ generate_summary releases (collectChanges releases), []]
              ++ ["ðŸŽ¯ *Try This*".data]
              ++ (identify_try_this (collectChanges releases)).map
                  (fun item => ("  â†’ ").data ++ escape_markdown item)) ++ [[]])
          else ["â˜€ï¸ *Claude Code Morning Digest*".data, [],
            "ðŸ“Œ ".data ++ generate_summary releases (collectChanges releases), []]))
        ++ [("[View on GitHub](").data ++ (releases.headD ⟨[], [], []⟩).html_url
            ++ (")").data] := by
  rfl

/-- C6 counterexample: a digest holding both a Bug Fixes item and an IDE
item renders the IDE and Editor section before the Bug Fixes section,
while the claimed order from the data-model section has Bug Fixes before
IDE and Editor. -/
theorem C6_counterexample :
    (format_digest_lines
        [⟨("v1.0.0").data, ("- Fixed the crash bug\n- vscode extension support added").data,
          ("https://example.com").data⟩] []).filter isCategoryHeader
      = [headerOf ("IDE & Editor").data, headerOf ("Bug Fixes").data]
    ∧ headerOf ("IDE & Editor").data ≠ headerOf ("Bug Fixes").data := by
  constructor
  · decide
  · decide

/-- C6 as amended: the non-empty category sections of every composed
digest appear in the fixed order of the source's category_order list (New
Features, Improvements, IDE and Editor, Performance, Bug Fixes, Changes,
Documentation, Other Changes), with Other Changes last; the digest itself
is the newline join of these lines whenever there are releases. -/
theorem C6_category_order (releases : List Release) :
    (releases ≠ [] → format_digest releases [] = joinNL (format_digest_lines releases []))
    ∧ (format_digest_lines releases []).filter isCategoryHeader
      = (category_order.filter
          (fun c => (getVal (categorize_changes (collectChanges releases)) c).isSome)).map
          headerOf
    ∧ category_order.getLast? = some ("Other Changes").data := by
  refine ⟨?_, ?_, by decide⟩
  · intro h
    unfold format_digest
    rw [if_neg h]
  · rw [format_digest_lines_no_enrichment]
    rw [List.filter_append]
    rw [filter_sections_fold _ category_order (by decide) _]
    have hfoot : ([("[View on GitHub](").data
        ++ (releases.headD ⟨[], [], []⟩).html_url ++ (")").data] : List Str).filter
          isCategoryHeader = [] := by
      rw [List.filter_eq_nil_iff]
      intro a ha
      simp only [List.mem_singleton] at ha
      rw [ha, List.append_assoc, not_header_of_prefixed ("[View on GitHub](").data (by decide)]
      simp
    have h1 : isCategoryHeader ("â˜€ï¸ *Claude Code Morning Digest*").data = false := by decide
    have h2 : isCategoryHeader ([] : Str) = false := by decide
    have h3 : isCategoryHeader (("ðŸ“Œ ").data
        ++ generate_summary releases (collectChanges releases)) = false :=
      not_header_of_prefixed _ (by decide) _
    have hbase : (["â˜€ï¸ *Claude Code Morning Digest*".data, ([] : Str),
        "ðŸ“Œ ".data ++ generate_summary releases (collectChanges releases),
        ([] : Str)] : List Str).filter isCategoryHeader = [] := by
      rw [List.filter_cons_of_neg (ne_true_of_eq_false h1),
          List.filter_cons_of_neg (ne_true_of_eq_false h2),
          List.filter_cons_of_neg (ne_true_of_eq_false h3),
          List.filter_cons_of_neg (ne_true_of_eq_false h2),
          List.filter_nil]
    have hlines2 : ((if identify_try_this (collectChanges releases) ≠ [] then
        ((["â˜€ï¸ *Claude Code Morning Digest*".data, [],
          "ðŸ“Œ ".data ++ generate_summary releases (collectChanges releases), []]
          ++ ["ðŸŽ¯ *Try This*".data]
          ++ (identify_try_this (collectChanges releases)).map
              (fun item => ("  â†’ ").data ++ escape_markdown item)) ++ [[]])
        else ["â˜€ï¸ *Claude Code Morning Digest*".data, [],
          "ðŸ“Œ ".data ++ generate_summary releases (collectChanges releases), []]) : List Str).filter
          isCategoryHeader = [] := by
      by_cases ht : identify_try_this (collectChanges releases) ≠ []
      · rw [if_pos ht, List.filter_append, List.filter_append, List.filter_append,
          hbase, filter_tryLines]
        have h4 : isCategoryHeader ("ðŸŽ¯ *Try This*").data = false := by decide
        rw [List.filter_cons_of_neg (ne_true_of_eq_false h4),
            List.filter_cons_of_neg (ne_true_of_eq_false h2)]
        simp
      · rw [if_neg ht]
        exact hbase
    rw [hlines2, hfoot]
    simp

/-- C6 witness: for a concrete one-release input the digest is the
newline join of its line list. -/
theorem C6_witness :
    format_digest [⟨("v1.0.0").data, [], ("u").data⟩] []
      = joinNL (format_digest_lines [⟨("v1.0.0").data, [], ("u").data⟩] []) :=
  (C6_category_order [⟨("v1.0.0").data, [], ("u").data⟩]).1 (by decide)
